import Mathlib

/-!
Verification of the LibCST metadata-provider framework and position tracking.

The provider framework (`BaseMetadataProvider._gen`, `set_metadata`,
`get_metadata`, `BatchableMetadataProvider._gen_impl`, `_gen_batchable`) is
embedded from `libcst/metadata/base_provider.py`.  Python dictionaries are
modelled as association lists with insertion-ordered overwrite (`Dict`), and
the object heap (which is what makes `dict(...)` copies and
`MappingProxyType` read-only views meaningful) as a store of dictionaries
addressed by natural numbers (`Heap`).  A provider is its `_computed`
attribute: an address into that store.

The position provider and module rendering are not part of the provided
sources (only their tests are), so they are modelled from the specification:
a render traversal maintains a cursor `(line, col)` advanced character by
character, snapshots the cursor when a node is entered as its `start` and
when it is left as its `end`, and records that half-open `CodeRange`.
-/

namespace LibCST

/-- A tree node identity: the specification keys metadata maps by a stable
integer handle per node. -/
abbrev Node := Nat

/-- A Python `dict` keyed by node handles: an association list where
`set` overwrites an existing key in place (keeping its position) and
appends a fresh key, mirroring insertion-ordered dict update. -/
abbrev Dict (V : Type) := List (Node × V)

namespace Dict

/-- `d[n]` lookup: first binding for `n`, if any. -/
def get? {V : Type} : Dict V → Node → Option V
  | [], _ => none
  | (k, w) :: rest, n => if k = n then some w else get? rest n

/-- `d[n] = v`: overwrite the binding for `n` if present, else append it. -/
def set {V : Type} : Dict V → Node → V → Dict V
  | [], n, v => [(n, v)]
  | (k, w) :: rest, n, v =>
      if k = n then (n, v) :: rest else (k, w) :: set rest n v

/-- Apply a sequence of `record`/`set_metadata` calls to a dictionary. -/
def setAll {V : Type} (d : Dict V) (rs : List (Node × V)) : Dict V :=
  rs.foldl (fun d nv => d.set nv.1 nv.2) d

end Dict

/-- The Python object heap restricted to what the provider framework
manipulates: a store of dictionaries.  An address is an index into the
store; `dict(x)` is an allocation of a fresh address holding a copy of the
contents, and a `MappingProxyType` is an address through which the model
only ever reads. -/
structure Heap (V : Type) where
  store : List (Dict V)

namespace Heap

/-- Read the dictionary at an address (empty for a dangling address). -/
def read {V : Type} (h : Heap V) (a : Nat) : Dict V :=
  h.store.getD a []

/-- Overwrite the dictionary at an address (no-op when dangling, as the
framework never produces dangling addresses). -/
def write {V : Type} (h : Heap V) (a : Nat) (d : Dict V) : Heap V :=
  ⟨h.store.set a d⟩

/-- Allocate a fresh dictionary, returning the new heap and its address. -/
def alloc {V : Type} (h : Heap V) (d : Dict V) : Heap V × Nat :=
  (⟨h.store ++ [d]⟩, h.store.length)

end Heap

/-- A metadata provider instance, reduced to the state the framework
manipulates: the address of its mutable `_computed` accumulator. -/
structure Provider where
  acc : Nat

/-- `BaseMetadataProvider.set_metadata(node, value)`:
`self._computed[node] = value`, a write through the provider's
accumulator address. -/
def set_metadata {V : Type} (h : Heap V) (p : Provider) (n : Node) (v : V) :
    Heap V :=
  h.write p.acc ((h.read p.acc).set n v)

/-- Apply a sequence of `set_metadata` calls on one provider. -/
def setMetadataAll {V : Type} (h : Heap V) (p : Provider)
    (rs : List (Node × V)) : Heap V :=
  rs.foldl (fun h nv => set_metadata h p nv.1 nv.2) h

/-- Result of `BaseMetadataProvider._gen`: the heap after the call, the
provider's state after the call (its accumulator was rebound by
`self._computed = {}`), and the address of the returned read-only snapshot
(`MappingProxyType(dict(self._computed))`). -/
structure GenResult (V : Type) where
  heap : Heap V
  provider : Provider
  snapshot : Nat

/-- `BaseMetadataProvider._gen(wrapper)`.  The subclass-specific traversal
`_gen_impl` is abstracted by the sequence `rs` of `set_metadata` calls it
performs; `self.resolve(wrapper)` only scopes dependency visibility and
does not touch this provider's accumulator.  The body is:
`self._computed = {}` (rebind the accumulator to a fresh empty dict);
run the traversal; return `MappingProxyType(dict(self._computed))`
(allocate a copy of the accumulator and hand out a read-only view of it). -/
def gen {V : Type} (h : Heap V) (rs : List (Node × V)) : GenResult V :=
  let (h1, a1) := h.alloc []
  let p1 : Provider := ⟨a1⟩
  let h2 := setMetadataAll h1 p1 rs
  let (h3, snap) := h2.alloc (h2.read a1)
  ⟨h3, p1, snap⟩

/-- Outcome of `get_metadata`: a value, or the `KeyError` a lookup of a
missing node raises, which the specification calls `MetadataNotFound`. -/
inductive MetaResult (V : Type) where
  | found (v : V)
  | metadataNotFound
  deriving DecidableEq

/-- The `key is type(self)` branch of `BaseMetadataProvider.get_metadata`:
if a default was supplied (the `_UNDEFINED_DEFAULT` sentinel is modelled by
`none`), return `self._computed.get(node, default)`; otherwise index
`self._computed[node]`, which fails with `MetadataNotFound` when the node
has no entry.  (The other branch delegates to the dependency-resolution
context and is outside this file's sources.) -/
def get_metadata {V : Type} (h : Heap V) (p : Provider) (n : Node)
    (default : Option V) : MetaResult V :=
  match default with
  | some d => .found (((h.read p.acc).get? n).getD d)
  | none =>
      match (h.read p.acc).get? n with
      | some v => .found v
      | none => .metadataNotFound

/-- `BatchableMetadataProvider._gen_impl(module)` is `pass`: whatever the
tree, it performs no `set_metadata` calls. -/
def batchableGenImplCalls {V : Type} (tree : Type) (module : tree) :
    List (Node × V) :=
  []

/-- `BaseMetadataProvider._gen` as invoked directly on a
`BatchableMetadataProvider`: the traversal step contributes the (empty)
record sequence of its no-op `_gen_impl`. -/
def batchableGen {V : Type} (h : Heap V) (tree : Type) (module : tree) :
    GenResult V :=
  gen h (batchableGenImplCalls tree module)

/-- Modelled from the spec: `MetadataWrapper.visit_batched`, the shared
traversal of the batch execution engine, is missing from the sources.  Per
the specification it performs one traversal invoking each provider's
enter/leave callbacks, which record into that provider's accumulator; the
net effect on each provider is the sequence of `set_metadata` calls its
callbacks perform, applied to its current accumulator (no reset is
specified or performed). -/
def visit_batched {V : Type} (h : Heap V)
    (prs : List (Provider × List (Node × V))) : Heap V :=
  prs.foldl (fun h pr => setMetadataAll h pr.1 pr.2) h

/-- `_gen_batchable(wrapper, providers)`: run `wrapper.visit_batched` on the
providers, then return `{type(p): MappingProxyType(dict(p._computed)) for p
in providers}` — for each provider, allocate a copy of its accumulator and
hand out a read-only view.  Returns the final heap and the snapshot
addresses in provider order. -/
def gen_batchable {V : Type} (h : Heap V)
    (prs : List (Provider × List (Node × V))) : Heap V × List Nat :=
  let h1 := visit_batched h prs
  prs.foldl
    (fun acc pr =>
      let (h2, a) := acc.1.alloc (acc.1.read pr.1.acc)
      (h2, acc.2 ++ [a]))
    (h1, ([] : List Nat))

/-- The snapshot-allocation loop of `_gen_batchable` (the dict
comprehension `{type(p): MappingProxyType(dict(p._computed)) ...}`) in
recursive form, for reasoning: one copy allocation per provider, in
order. -/
def batchSnapshots {V : Type} (hp : Heap V × List Nat) :
    List (Provider × List (Node × V)) → Heap V × List Nat
  | [] => hp
  | pr :: rest =>
      batchSnapshots
        ((hp.1.alloc (hp.1.read pr.1.acc)).1,
          hp.2 ++ [(hp.1.alloc (hp.1.read pr.1.acc)).2]) rest

/-! ### Position tracking (modelled from the spec)

The position provider and the render engine are not in the provided
sources.  Modelled from the spec: rendering maintains a cursor
`(line, col)` (lines 1-based, columns 0-based) advanced character by
character, a newline advancing to column 0 of the next line; on entering a
node the cursor is snapshotted as its `start`, on leaving as its `end`, and
the half-open `CodeRange(start, end)` is recorded for the node. -/

/-- Rendered text, as the characters emitted. -/
abbrev Text := List Char

/-- A cursor position: 1-based line, 0-based column. -/
structure Pos where
  line : Nat
  col : Nat
  deriving DecidableEq

/-- Advance the cursor over one emitted character: a newline moves to
column 0 of the next line, any other character advances the column. -/
def Pos.advanceChar (p : Pos) (c : Char) : Pos :=
  if c = '\n' then ⟨p.line + 1, 0⟩ else ⟨p.line, p.col + 1⟩

/-- Advance the cursor over a run of emitted text, counting embedded
newlines. -/
def Pos.advance (p : Pos) (s : Text) : Pos :=
  s.foldl Pos.advanceChar p

/-- Lexicographic order on cursor positions. -/
def posLe (p q : Pos) : Prop :=
  p.line < q.line ∨ (p.line = q.line ∧ p.col ≤ q.col)

instance (p q : Pos) : Decidable (posLe p q) := by
  unfold posLe
  exact inferInstance

/-- The half-open range of source a node occupies: `endPos` is the cursor
position immediately after the node's last character. -/
structure CodeRange where
  start : Pos
  endPos : Pos
  deriving DecidableEq

mutual
/-- Modelled from the spec: a rendered tree as the render engine exposes it
to the position provider — a node carries an identity and an ordered
content sequence. -/
inductive PTree : Type where
  | node (ident : Nat) (content : PSegs) : PTree
/-- Content of a node: interleaved literal text fragments (emitted on the
node's own behalf: tokens, whitespace, indentation) and child nodes. -/
inductive PSegs : Type where
  | nil : PSegs
  | text (s : Text) (rest : PSegs) : PSegs
  | child (t : PTree) (rest : PSegs) : PSegs
end

/-- The identity of a node. -/
def PTree.ident : PTree → Nat
  | .node i _ => i

mutual
/-- Modelled from the spec: render a node from a cursor position, returning
the cursor after the node and the position records made — each node's
record pairs its identity with the range from its entry cursor to its exit
cursor. -/
def renderTree : PTree → Pos → Pos × List (Nat × CodeRange)
  | .node i content, p =>
      let r := renderSegs content p
      (r.1, r.2 ++ [(i, ⟨p, r.1⟩)])
/-- Render a content sequence from a cursor position. -/
def renderSegs : PSegs → Pos → Pos × List (Nat × CodeRange)
  | .nil, p => (p, [])
  | .text s rest, p => renderSegs rest (p.advance s)
  | .child t rest, p =>
      let r1 := renderTree t p
      let r2 := renderSegs rest r1.1
      (r2.1, r1.2 ++ r2.2)
end

/-- The cursor after rendering a node from `p`; the node's recorded range
is `⟨p, treeEnd t p⟩`. -/
def treeEnd (t : PTree) (p : Pos) : Pos :=
  (renderTree t p).1

/-- The cursor after rendering a content sequence from `p`. -/
def segsEnd (s : PSegs) (p : Pos) : Pos :=
  (renderSegs s p).1

mutual
/-- `TreeEnter t p d q`: while `t` is rendered from cursor `p`, the node
`d` (either `t` itself or a descendant) is entered at cursor `q`.  This is
the ancestor relation together with the descendant's entry cursor. -/
inductive TreeEnter : PTree → Pos → PTree → Pos → Prop where
  | refl (t : PTree) (p : Pos) : TreeEnter t p t p
  | inContent {segs : PSegs} {p : Pos} {d : PTree} {q : Pos} (i : Nat) :
      SegsEnter segs p d q → TreeEnter (.node i segs) p d q
/-- `SegsEnter segs p d q`: while the content `segs` is rendered from
cursor `p`, node `d` is entered at cursor `q`. -/
inductive SegsEnter : PSegs → Pos → PTree → Pos → Prop where
  | skipText {rest : PSegs} {p : Pos} {d : PTree} {q : Pos} (s : Text) :
      SegsEnter rest (p.advance s) d q → SegsEnter (.text s rest) p d q
  | inChild {t : PTree} {p : Pos} {d : PTree} {q : Pos} (rest : PSegs) :
      TreeEnter t p d q → SegsEnter (.child t rest) p d q
  | skipChild {rest : PSegs} {p : Pos} {d : PTree} {q : Pos} (t : PTree) :
      SegsEnter rest (treeEnd t p) d q → SegsEnter (.child t rest) p d q
end

/-! ### Module rendering (modelled from the spec)

The module node and its rendering are not in the provided sources.
Modelled from the spec: a module renders its header lines, then its body
statements, then its footer lines; a header/footer line renders its comment
followed by a newline; a simple statement line renders its small statements
followed by a newline; if `has_trailing_newline` is set and nothing at all
was rendered, a single newline is rendered; if it is not set and something
was rendered, the final newline token is dropped.  Naked newlines use the
module's `default_newline`. -/

/-- A header/footer line carrying a comment. -/
structure EmptyLine where
  comment : Text

/-- The expression kinds position-tracking claims need: a (possibly
multi-line) string literal carrying its exact source text. -/
inductive Expression where
  | str (text : Text)

/-- Small statements: `pass`, or an expression statement. -/
inductive SmallStatement where
  | pass
  | expr (value : Expression)

/-- A statement: a simple statement line (small statements then a
newline). -/
inductive Statement where
  | simpleLine (body : List SmallStatement)

/-- The module/document root, per the spec's data model. -/
structure Module where
  body : List Statement
  header : List EmptyLine
  footer : List EmptyLine
  default_newline : Text
  has_trailing_newline : Bool

/-- Tokens of an expression. -/
def Expression.tokens : Expression → List Text
  | .str s => [s]

/-- Tokens of a small statement. -/
def SmallStatement.tokens : SmallStatement → List Text
  | .pass => ["pass".toList]
  | .expr e => e.tokens

/-- Tokens of a statement, ending in its newline. -/
def Statement.tokens (nl : Text) : Statement → List Text
  | .simpleLine body => body.flatMap SmallStatement.tokens ++ [nl]

/-- Tokens of a header/footer line: its comment, then a newline. -/
def EmptyLine.tokens (nl : Text) (e : EmptyLine) : List Text :=
  [e.comment, nl]

/-- Tokens of a module rendered with newline string `nl` (the rendering
state's `default_newline`): header, body, footer, then the
`has_trailing_newline` adjustment — an empty render gains a newline when
the flag is set, and the final newline token is dropped when it is not. -/
def Module.tokensWith (nl : Text) (m : Module) : List Text :=
  let toks := m.header.flatMap (EmptyLine.tokens nl)
      ++ m.body.flatMap (Statement.tokens nl)
      ++ m.footer.flatMap (EmptyLine.tokens nl)
  if m.has_trailing_newline then
    if toks.isEmpty then [nl] else toks
  else
    toks.dropLast

/-- Identities for the nodes of a module, for keying position records:
the module itself, its `i`-th statement, the `j`-th small statement of the
`i`-th statement, and that small statement's string-literal value. -/
inductive NodeId where
  | module
  | stmt (i : Nat)
  | small (i j : Nat)
  | strNode (i j : Nat)
  deriving DecidableEq

/-- Position records of an expression entered at `p`: its range covers its
literal text, embedded newlines advancing the line. -/
def Expression.posRecs (i j : Nat) : Expression → Pos →
    Pos × List (NodeId × CodeRange)
  | .str s, p =>
      let q := p.advance s
      (q, [(.strNode i j, ⟨p, q⟩)])

/-- Position records of a small statement entered at `p`. -/
def SmallStatement.posRecs (i j : Nat) : SmallStatement → Pos →
    Pos × List (NodeId × CodeRange)
  | .pass, p =>
      let q := p.advance "pass".toList
      (q, [(.small i j, ⟨p, q⟩)])
  | .expr e, p =>
      let r := e.posRecs i j p
      (r.1, r.2 ++ [(.small i j, ⟨p, r.1⟩)])

/-- Position records of a run of small statements, numbering from `j`. -/
def smallsPosRecs (i : Nat) : List SmallStatement → Nat → Pos →
    Pos × List (NodeId × CodeRange)
  | [], _, p => (p, [])
  | s :: rest, j, p =>
      let r1 := s.posRecs i j p
      let r2 := smallsPosRecs i rest (j + 1) r1.1
      (r2.1, r1.2 ++ r2.2)

/-- Position records of a statement entered at `p`: its recorded (syntactic)
range covers its small statements and excludes the trailing newline, which
nevertheless advances the cursor. -/
def Statement.posRecs (nl : Text) (i : Nat) : Statement → Pos →
    Pos × List (NodeId × CodeRange)
  | .simpleLine body, p =>
      let r := smallsPosRecs i body 0 p
      (r.1.advance nl, r.2 ++ [(.stmt i, ⟨p, r.1⟩)])

/-- Position records of a run of statements, numbering from `i`. -/
def stmtsPosRecs (nl : Text) : List Statement → Nat → Pos →
    Pos × List (NodeId × CodeRange)
  | [], _, p => (p, [])
  | s :: rest, i, p =>
      let r1 := s.posRecs nl i p
      let r2 := stmtsPosRecs nl rest (i + 1) r1.1
      (r2.1, r1.2 ++ r2.2)

/-- The rendered text of a module (`Module.code`). -/
def Module.code (m : Module) : Text :=
  (m.tokensWith m.default_newline).flatten

/-- The position provider's records for a module: the header lines advance
the cursor from `(1,0)`, the body statements are tracked, and the module's
own range runs from `(1,0)` to the cursor after the whole rendered text
(footer lines and the trailing-newline adjustment advance it by
construction). -/
def Module.positions (m : Module) : List (NodeId × CodeRange) :=
  let p1 := (⟨1, 0⟩ : Pos).advance
      (m.header.flatMap (EmptyLine.tokens m.default_newline)).flatten
  let r := stmtsPosRecs m.default_newline m.body 0 p1
  r.2 ++ [(.module, ⟨⟨1, 0⟩, (⟨1, 0⟩ : Pos).advance m.code⟩)]

/-- Look up the range recorded for a node. -/
def findRange (recs : List (NodeId × CodeRange)) (n : NodeId) :
    Option CodeRange :=
  (recs.find? (fun r => r.1 == n)).map (fun r => r.2)

/-- The node kinds `code_for_node` claims render: a naked `Newline` node,
a small statement, a statement, or a whole module node. -/
inductive RenderNode where
  | newline
  | small (s : SmallStatement)
  | stmtNode (s : Statement)
  | moduleNode (inner : Module)

/-- `Module.code_for_node(node)`: render one node with a fresh state
carrying this module's document-wide defaults (`default_newline`,
`default_indent`).  A `Newline` node renders as the state's default
newline; a module node renders by its own attributes (its own
`has_trailing_newline`), with naked newlines from the state. -/
def code_for_node (m : Module) : RenderNode → Text
  | .newline => m.default_newline
  | .small s => s.tokens.flatten
  | .stmtNode s => (s.tokens m.default_newline).flatten
  | .moduleNode inner => (inner.tokensWith m.default_newline).flatten

/-- Fixture for evaluating the containment theorem: a leaf node rendering
`"c"`. -/
def sampleLeaf : PTree := .node 2 (.text "c".toList .nil)

/-- Fixture: a node rendering `"b"` and then `sampleLeaf`. -/
def sampleChild : PTree := .node 1 (.text "b".toList (.child sampleLeaf .nil))

/-- Fixture: a root rendering `"a\n"` and then `sampleChild`. -/
def sampleRoot : PTree := .node 0 (.text "a\n".toList (.child sampleChild .nil))

/-! ### Basic lemmas about the heap and accumulator operations -/

@[simp] theorem Dict.setAll_nil {V : Type} (d : Dict V) : d.setAll [] = d :=
  rfl

@[simp] theorem Dict.setAll_cons {V : Type} (d : Dict V) (nv : Node × V)
    (rs : List (Node × V)) :
    d.setAll (nv :: rs) = (d.set nv.1 nv.2).setAll rs := rfl

@[simp] theorem Heap.write_store_length {V : Type} (h : Heap V) (a : Nat)
    (d : Dict V) : (h.write a d).store.length = h.store.length := by
  simp [Heap.write]

theorem Heap.read_write_self {V : Type} (h : Heap V) (a : Nat) (d : Dict V)
    (ha : a < h.store.length) : (h.write a d).read a = d := by
  simp [Heap.read, Heap.write, List.getD, List.getElem?_set_self ha]

theorem Heap.read_write_ne {V : Type} (h : Heap V) (a b : Nat) (d : Dict V)
    (hab : b ≠ a) : (h.write a d).read b = h.read b := by
  simp [Heap.read, Heap.write, List.getD,
    List.getElem?_set_ne (fun e => hab e.symm)]

theorem Heap.read_alloc_self {V : Type} (h : Heap V) (d : Dict V) :
    (h.alloc d).1.read (h.alloc d).2 = d := by
  simp [Heap.read, Heap.alloc, List.getD]

theorem Heap.read_alloc_lt {V : Type} (h : Heap V) (d : Dict V) (b : Nat)
    (hb : b < h.store.length) : (h.alloc d).1.read b = h.read b := by
  simp [Heap.read, Heap.alloc, List.getD, List.getElem?_append_left hb]

@[simp] theorem Heap.alloc_store_length {V : Type} (h : Heap V)
    (d : Dict V) : (h.alloc d).1.store.length = h.store.length + 1 := by
  simp [Heap.alloc]

@[simp] theorem setMetadataAll_nil {V : Type} (h : Heap V) (p : Provider) :
    setMetadataAll h p [] = h := rfl

@[simp] theorem setMetadataAll_cons {V : Type} (h : Heap V) (p : Provider)
    (nv : Node × V) (rs : List (Node × V)) :
    setMetadataAll h p (nv :: rs) =
      setMetadataAll (set_metadata h p nv.1 nv.2) p rs := rfl

theorem setMetadataAll_store_length {V : Type} (rs : List (Node × V))
    (h : Heap V) (p : Provider) :
    (setMetadataAll h p rs).store.length = h.store.length := by
  induction rs generalizing h with
  | nil => rfl
  | cons nv rs ih => simp [ih, set_metadata]

theorem read_setMetadataAll_self {V : Type} (rs : List (Node × V))
    (h : Heap V) (p : Provider) (ha : p.acc < h.store.length) :
    (setMetadataAll h p rs).read p.acc = (h.read p.acc).setAll rs := by
  induction rs generalizing h with
  | nil => rfl
  | cons nv rs ih =>
      rw [setMetadataAll_cons, Dict.setAll_cons, ih]
      · rw [set_metadata, Heap.read_write_self _ _ _ ha]
      · simpa [set_metadata] using ha

theorem read_setMetadataAll_ne {V : Type} (rs : List (Node × V))
    (h : Heap V) (p : Provider) (b : Nat) (hb : b ≠ p.acc) :
    (setMetadataAll h p rs).read b = h.read b := by
  induction rs generalizing h with
  | nil => rfl
  | cons nv rs ih =>
      rw [setMetadataAll_cons, ih, set_metadata, Heap.read_write_ne _ _ _ _ hb]

/-- What `_gen` returns through the snapshot address: exactly the dictionary
built from the empty accumulator by the `set_metadata` calls of this run. -/
theorem gen_read_snapshot {V : Type} (h : Heap V) (rs : List (Node × V)) :
    (gen h rs).heap.read (gen h rs).snapshot = Dict.setAll [] rs := by
  have h1 : (gen h rs).heap.read (gen h rs).snapshot =
      (setMetadataAll ⟨h.store ++ [[]]⟩ ⟨h.store.length⟩ rs).read
        h.store.length := by
    simpa [gen, Heap.alloc] using
      Heap.read_alloc_self (setMetadataAll ⟨h.store ++ [[]]⟩ ⟨h.store.length⟩ rs)
        ((setMetadataAll ⟨h.store ++ [[]]⟩ ⟨h.store.length⟩ rs).read
          h.store.length)
  rw [h1, read_setMetadataAll_self rs ⟨h.store ++ [[]]⟩ ⟨h.store.length⟩
    (by simp)]
  have h2 : (Heap.mk (h.store ++ [[]]) : Heap V).read h.store.length = [] := by
    simpa [Heap.alloc] using Heap.read_alloc_self h ([] : Dict V)
  rw [h2]

theorem gen_provider_acc {V : Type} (h : Heap V) (rs : List (Node × V)) :
    (gen h rs).provider.acc = h.store.length := rfl

theorem gen_snapshot_addr {V : Type} (h : Heap V) (rs : List (Node × V)) :
    (gen h rs).snapshot = h.store.length + 1 := by
  show (setMetadataAll ⟨h.store ++ [[]]⟩ ⟨h.store.length⟩ rs).store.length =
    h.store.length + 1
  rw [setMetadataAll_store_length]
  simp

/-- After `_gen` returns, writes through any accumulator address other than
the snapshot address leave the snapshot's contents untouched. -/
theorem read_setMetadataAll_chain {V : Type}
    (ops : List (Provider × Node × V)) (h : Heap V) (b : Nat)
    (hb : ∀ o ∈ ops, o.1.acc ≠ b) :
    (ops.foldl (fun h o => set_metadata h o.1 o.2.1 o.2.2) h).read b =
      h.read b := by
  induction ops generalizing h with
  | nil => rfl
  | cons o ops ih =>
      rw [List.foldl_cons, ih _ (fun o ho => hb o (List.mem_cons_of_mem _ ho)),
        set_metadata, Heap.read_write_ne _ _ _ _
          (fun e => hb o (List.mem_cons_self _ _) e.symm)]

/-! ### Lemmas about batch execution over a group of providers -/

@[simp] theorem visit_batched_nil {V : Type} (h : Heap V) :
    visit_batched h [] = h := rfl

@[simp] theorem visit_batched_cons {V : Type} (h : Heap V)
    (pr : Provider × List (Node × V))
    (rest : List (Provider × List (Node × V))) :
    visit_batched h (pr :: rest) =
      visit_batched (setMetadataAll h pr.1 pr.2) rest := rfl

theorem visit_batched_store_length {V : Type}
    (prs : List (Provider × List (Node × V))) (h : Heap V) :
    (visit_batched h prs).store.length = h.store.length := by
  induction prs generalizing h with
  | nil => rfl
  | cons pr rest ih =>
      rw [visit_batched_cons, ih, setMetadataAll_store_length]

theorem read_visit_batched_ne {V : Type}
    (prs : List (Provider × List (Node × V))) (h : Heap V) (b : Nat)
    (hb : ∀ pr ∈ prs, pr.1.acc ≠ b) :
    (visit_batched h prs).read b = h.read b := by
  induction prs generalizing h with
  | nil => rfl
  | cons pr rest ih =>
      rw [visit_batched_cons,
        ih _ (fun q hq => hb q (List.mem_cons_of_mem _ hq)),
        read_setMetadataAll_ne _ _ _ _ (hb pr (List.mem_cons_self _ _)).symm]

/-- The shared traversal leaves each provider's accumulator holding its own
record sequence applied on top of its prior contents, provided the
providers' accumulators are pairwise-distinct dicts (as distinct Python
instances' `_computed` attributes are). -/
theorem read_visit_batched_at {V : Type}
    (prs : List (Provider × List (Node × V))) (h : Heap V) (i : Nat)
    (hi : i < prs.length)
    (hacc : ∀ pr ∈ prs, pr.1.acc < h.store.length)
    (hdist : prs.Pairwise (fun a b => a.1.acc ≠ b.1.acc)) :
    (visit_batched h prs).read prs[i].1.acc =
      (h.read prs[i].1.acc).setAll prs[i].2 := by
  induction prs generalizing h i with
  | nil => exact absurd hi (by simp)
  | cons pr rest ih =>
      cases hdist with
      | cons hhead htail =>
          cases i with
          | zero =>
              simp only [List.getElem_cons_zero]
              rw [visit_batched_cons,
                read_visit_batched_ne rest _ _
                  (fun q hq => (hhead q hq).symm),
                read_setMetadataAll_self _ _ _
                  (hacc pr (List.mem_cons_self _ _))]
          | succ j =>
              simp only [List.getElem_cons_succ]
              have hj : j < rest.length := by
                simpa using hi
              have hacc2 : ∀ q ∈ rest,
                  q.1.acc < (setMetadataAll h pr.1 pr.2).store.length := by
                intro q hq
                rw [setMetadataAll_store_length]
                exact hacc q (List.mem_cons_of_mem _ hq)
              rw [visit_batched_cons,
                ih (setMetadataAll h pr.1 pr.2) j hj hacc2 htail,
                read_setMetadataAll_ne _ _ _ _
                  (hhead rest[j] (List.getElem_mem hj)).symm]

theorem batchSnapshots_addrs {V : Type}
    (prs : List (Provider × List (Node × V))) (h0 : Heap V)
    (as : List Nat) :
    (batchSnapshots (h0, as) prs).2 =
      as ++ List.range' h0.store.length prs.length := by
  induction prs generalizing h0 as with
  | nil => simp [batchSnapshots]
  | cons pr rest ih =>
      rw [batchSnapshots, ih]
      simp [Heap.alloc, List.range'_succ]

theorem batchSnapshots_read_lt {V : Type}
    (prs : List (Provider × List (Node × V))) (h0 : Heap V)
    (as : List Nat) (b : Nat) (hb : b < h0.store.length) :
    (batchSnapshots (h0, as) prs).1.read b = h0.read b := by
  induction prs generalizing h0 as with
  | nil => rfl
  | cons pr rest ih =>
      rw [batchSnapshots, ih _ _ (by simpa using Nat.lt_succ_of_lt hb),
        Heap.read_alloc_lt _ _ _ hb]

/-- The `i`-th snapshot allocated by `_gen_batchable`'s comprehension holds
a copy of what the `i`-th provider's accumulator held when the snapshots
were taken. -/
theorem batchSnapshots_read_at {V : Type}
    (prs : List (Provider × List (Node × V))) (h0 : Heap V)
    (as : List Nat) (i : Nat) (hi : i < prs.length)
    (hacc : ∀ pr ∈ prs, pr.1.acc < h0.store.length) :
    (batchSnapshots (h0, as) prs).1.read (h0.store.length + i) =
      h0.read prs[i].1.acc := by
  induction prs generalizing h0 as i with
  | nil => exact absurd hi (by simp)
  | cons pr rest ih =>
      cases i with
      | zero =>
          simp only [List.getElem_cons_zero, Nat.add_zero]
          rw [batchSnapshots,
            batchSnapshots_read_lt rest _ _ _ (by simp)]
          exact Heap.read_alloc_self h0 (h0.read pr.1.acc)
      | succ j =>
          simp only [List.getElem_cons_succ]
          have hj : j < rest.length := by
            simpa using hi
          have e1 : h0.store.length + (j + 1) =
              (h0.alloc (h0.read pr.1.acc)).1.store.length + j := by
            rw [Heap.alloc_store_length]
            omega
          have hacc2 : ∀ q ∈ rest,
              q.1.acc < (h0.alloc (h0.read pr.1.acc)).1.store.length := by
            intro q hq
            rw [Heap.alloc_store_length]
            exact Nat.lt_succ_of_lt (hacc q (List.mem_cons_of_mem _ hq))
          rw [batchSnapshots, e1,
            ih (h0.alloc (h0.read pr.1.acc)).1 _ j hj hacc2,
            Heap.read_alloc_lt _ _ _
              (hacc rest[j] (List.mem_cons_of_mem _ (List.getElem_mem hj)))]

theorem foldl_eq_batchSnapshots {V : Type}
    (prs : List (Provider × List (Node × V))) (hp : Heap V × List Nat) :
    prs.foldl
      (fun acc pr =>
        let (h2, a) := acc.1.alloc (acc.1.read pr.1.acc)
        (h2, acc.2 ++ [a])) hp = batchSnapshots hp prs := by
  induction prs generalizing hp with
  | nil => rfl
  | cons pr rest ih =>
      rw [List.foldl_cons, ih]
      rfl

/-- `_gen_batchable` is the shared traversal followed by the snapshot
loop. -/
theorem gen_batchable_eq {V : Type} (h : Heap V)
    (prs : List (Provider × List (Node × V))) :
    gen_batchable h prs = batchSnapshots (visit_batched h prs, []) prs :=
  foldl_eq_batchSnapshots prs (visit_batched h prs, [])

theorem range'_getD (s n i : Nat) (hi : i < n) :
    (List.range' s n).getD i 0 = s + i := by
  induction n generalizing s i with
  | zero => omega
  | succ n ih =>
      rw [List.range'_succ]
      cases i with
      | zero => simp
      | succ j =>
          simp only [List.getD_cons_succ]
          rw [ih (s + 1) j (by omega)]
          omega

theorem range'_not_mem_of_lt (s n b : Nat) (hb : b < s) :
    b ∉ List.range' s n := by
  induction n generalizing s with
  | zero => simp
  | succ n ih =>
      rw [List.range'_succ]
      simp only [List.mem_cons]
      rintro (rfl | hmem)
      · omega
      · exact ih (s + 1) (by omega) hmem

/-! ### Lemmas about the position-tracking render traversal -/

theorem posLe_refl (p : Pos) : posLe p p := Or.inr ⟨rfl, Nat.le_refl _⟩

theorem posLe_trans {p q r : Pos} (h1 : posLe p q) (h2 : posLe q r) :
    posLe p r := by
  unfold posLe at h1 h2 ⊢
  omega

theorem posLe_advanceChar (p : Pos) (c : Char) :
    posLe p (p.advanceChar c) := by
  unfold Pos.advanceChar
  split
  · exact Or.inl (Nat.lt_succ_self _)
  · exact Or.inr ⟨rfl, Nat.le_succ _⟩

theorem posLe_advance (p : Pos) (s : Text) : posLe p (p.advance s) := by
  induction s generalizing p with
  | nil => exact posLe_refl p
  | cons c s ih =>
      exact posLe_trans (posLe_advanceChar p c) (ih (p.advanceChar c))

theorem treeEnd_node (i : Nat) (segs : PSegs) (p : Pos) :
    treeEnd (.node i segs) p = segsEnd segs p := by
  simp [treeEnd, segsEnd, renderTree]

theorem segsEnd_nil (p : Pos) : segsEnd .nil p = p := by
  simp [segsEnd, renderSegs]

theorem segsEnd_text (s : Text) (rest : PSegs) (p : Pos) :
    segsEnd (.text s rest) p = segsEnd rest (p.advance s) := by
  simp [segsEnd, renderSegs]

theorem segsEnd_child (t : PTree) (rest : PSegs) (p : Pos) :
    segsEnd (.child t rest) p = segsEnd rest (treeEnd t p) := by
  simp [segsEnd, treeEnd, renderSegs]

mutual
/-- The cursor never moves backwards while a node renders. -/
theorem treeEnd_mono : (t : PTree) → (p : Pos) → posLe p (treeEnd t p)
  | .node i segs, p => by
      rw [treeEnd_node]
      exact segsEnd_mono segs p
/-- The cursor never moves backwards while a content sequence renders. -/
theorem segsEnd_mono : (s : PSegs) → (p : Pos) → posLe p (segsEnd s p)
  | .nil, p => by
      rw [segsEnd_nil]
      exact posLe_refl p
  | .text s rest, p => by
      rw [segsEnd_text]
      exact posLe_trans (posLe_advance p s) (segsEnd_mono rest (p.advance s))
  | .child t rest, p => by
      rw [segsEnd_child]
      exact posLe_trans (treeEnd_mono t p) (segsEnd_mono rest (treeEnd t p))
end

mutual
/-- A node entered while an ancestor renders is entered no earlier than the
ancestor, and finishes no later. -/
theorem treeEnter_contained {t : PTree} {p : Pos} {d : PTree} {q : Pos} :
    TreeEnter t p d q → posLe p q ∧ posLe (treeEnd d q) (treeEnd t p)
  | .refl t p => ⟨posLe_refl p, posLe_refl (treeEnd t p)⟩
  | .inContent i h => by
      have ih := segsEnter_contained h
      exact ⟨ih.1, by rw [treeEnd_node]; exact ih.2⟩
/-- Content-sequence version of `treeEnter_contained`. -/
theorem segsEnter_contained {s : PSegs} {p : Pos} {d : PTree} {q : Pos} :
    SegsEnter s p d q → posLe p q ∧ posLe (treeEnd d q) (segsEnd s p)
  | .skipText s h => by
      have ih := segsEnter_contained h
      exact ⟨posLe_trans (posLe_advance _ s) ih.1,
        by rw [segsEnd_text]; exact ih.2⟩
  | .inChild rest h => by
      have ih := treeEnter_contained h
      exact ⟨ih.1,
        by rw [segsEnd_child]; exact posLe_trans ih.2 (segsEnd_mono rest _)⟩
  | .skipChild t h => by
      have ih := segsEnter_contained h
      exact ⟨posLe_trans (treeEnd_mono t _) ih.1,
        by rw [segsEnd_child]; exact ih.2⟩
end

theorem renderTree_node (i : Nat) (segs : PSegs) (p : Pos) :
    (renderTree (.node i segs) p).2 =
      (renderSegs segs p).2 ++ [(i, ⟨p, segsEnd segs p⟩)] := by
  simp [renderTree, segsEnd]

mutual
/-- Every node entered during a render has its range — entry cursor to exit
cursor — recorded under its identity. -/
theorem treeEnter_recorded {t : PTree} {p : Pos} {d : PTree} {q : Pos} :
    TreeEnter t p d q → (d.ident, ⟨q, treeEnd d q⟩) ∈ (renderTree t p).2
  | .refl t p => by
      cases t with
      | node i segs =>
          rw [renderTree_node]
          exact List.mem_append_right _
            (by rw [treeEnd_node]; exact List.mem_singleton.mpr rfl)
  | .inContent i h => by
      rw [renderTree_node]
      exact List.mem_append_left _ (segsEnter_recorded h)
/-- Content-sequence version of `treeEnter_recorded`. -/
theorem segsEnter_recorded {s : PSegs} {p : Pos} {d : PTree} {q : Pos} :
    SegsEnter s p d q → (d.ident, ⟨q, treeEnd d q⟩) ∈ (renderSegs s p).2
  | .skipText s h => by
      show _ ∈ (renderSegs (.text s _) p).2
      simp only [renderSegs]
      exact segsEnter_recorded h
  | .inChild rest h => by
      show _ ∈ (renderSegs (.child _ rest) p).2
      simp only [renderSegs]
      exact List.mem_append_left _ (treeEnter_recorded h)
  | .skipChild t h => by
      show _ ∈ (renderSegs (.child t _) p).2
      simp only [renderSegs]
      exact List.mem_append_right _ (by exact segsEnter_recorded h)
end

mutual
/-- Being entered-during-render is transitive: a node entered while a
descendant renders is entered while the ancestor renders. -/
theorem treeEnter_trans {t : PTree} {p : Pos} {d : PTree} {q : Pos}
    {e : PTree} {r : Pos} :
    TreeEnter t p d q → TreeEnter d q e r → TreeEnter t p e r
  | .refl _ _, h2 => h2
  | .inContent i h, h2 => .inContent i (segsEnter_trans h h2)
/-- Content-sequence version of `treeEnter_trans`. -/
theorem segsEnter_trans {s : PSegs} {p : Pos} {d : PTree} {q : Pos}
    {e : PTree} {r : Pos} :
    SegsEnter s p d q → TreeEnter d q e r → SegsEnter s p e r
  | .skipText s h, h2 => .skipText s (segsEnter_trans h h2)
  | .inChild rest h, h2 => .inChild rest (treeEnter_trans h h2)
  | .skipChild t h, h2 => .skipChild t (segsEnter_trans h h2)
end

/-! ### The claims -/

/-- C1: for every tree and every pair of nodes `N`, `M` where `N` is an
ancestor of `M` (`M` is entered while `N` renders), the position provider
records for `N` and `M` (starting the render of the whole tree at `(1,0)`)
ranges with `range(N).start ≤ range(M).start` and
`range(M).end ≤ range(N).end`: an ancestor's range contains every
descendant's range. -/
theorem claim1_ancestor_range_containment (root N M : PTree) (pN pM : Pos)
    (hN : TreeEnter root ⟨1, 0⟩ N pN) (hM : TreeEnter N pN M pM) :
    (N.ident, ⟨pN, treeEnd N pN⟩) ∈ (renderTree root ⟨1, 0⟩).2 ∧
    (M.ident, ⟨pM, treeEnd M pM⟩) ∈ (renderTree root ⟨1, 0⟩).2 ∧
    posLe pN pM ∧ posLe (treeEnd M pM) (treeEnd N pN) :=
  ⟨treeEnter_recorded hN, treeEnter_recorded (treeEnter_trans hN hM),
    (treeEnter_contained hM).1, (treeEnter_contained hM).2⟩

/-- Evaluation of `claim1_ancestor_range_containment` on a concrete
three-node tree: the child entered at `(2,0)` contains the leaf entered at
`(2,1)`. -/
theorem claim1_witness :
    (sampleChild.ident, ⟨⟨2, 0⟩, treeEnd sampleChild ⟨2, 0⟩⟩) ∈
      (renderTree sampleRoot ⟨1, 0⟩).2 ∧
    (sampleLeaf.ident, ⟨⟨2, 1⟩, treeEnd sampleLeaf ⟨2, 1⟩⟩) ∈
      (renderTree sampleRoot ⟨1, 0⟩).2 ∧
    posLe ⟨2, 0⟩ ⟨2, 1⟩ ∧
    posLe (treeEnd sampleLeaf ⟨2, 1⟩) (treeEnd sampleChild ⟨2, 0⟩) :=
  claim1_ancestor_range_containment sampleRoot sampleChild sampleLeaf
    ⟨2, 0⟩ ⟨2, 1⟩
    (.inContent 0 (.skipText _ (.inChild _ (.refl _ _))))
    (.inContent 1 (.skipText _ (.inChild _ (.refl _ _))))

/-- C2 as stated is false: `_gen_batchable` never resets a provider's
accumulator, so an entry present before the batch run survives into the
returned frozen map.  Here a provider whose accumulator already holds
`(0, 5)` goes through a batch run that records nothing, and the returned
map is `[(0, 5)]`, not empty. -/
theorem claim2_counterexample :
    (gen_batchable (V := Nat) ⟨[[(0, 5)]]⟩ [(⟨0⟩, [])]).2 = [1] ∧
    (gen_batchable (V := Nat) ⟨[[(0, 5)]]⟩ [(⟨0⟩, [])]).1.read 1 = [(0, 5)] ∧
    [((0 : Node), (5 : Nat))] ≠ ([] : Dict Nat) := by
  decide

/-- C2 amended: for every batch execution over a group of batchable
providers (with valid, pairwise-distinct accumulators — distinct instances
own distinct `_computed` dicts), the frozen map returned for each provider
is its batch record sequence applied on top of whatever its accumulator
already held: entries present before the run are retained, not discarded,
with entries recorded during the run overwriting same-node ones.  The
snapshots occupy one fresh address per provider, in provider order. -/
theorem claim2_batch_keeps_prior_entries {V : Type} (h : Heap V)
    (prs : List (Provider × List (Node × V)))
    (hvalid : ∀ pr ∈ prs, pr.1.acc < h.store.length)
    (hdist : prs.Pairwise (fun a b => a.1.acc ≠ b.1.acc)) :
    (gen_batchable h prs).2 = List.range' h.store.length prs.length ∧
    ∀ i, (hi : i < prs.length) →
      (gen_batchable h prs).2.getD i 0 = h.store.length + i ∧
      (gen_batchable h prs).1.read (h.store.length + i) =
        (h.read prs[i].1.acc).setAll prs[i].2 := by
  have hlen := visit_batched_store_length prs h
  have haddrs : (gen_batchable h prs).2 =
      List.range' h.store.length prs.length := by
    rw [gen_batchable_eq, batchSnapshots_addrs, hlen, List.nil_append]
  refine ⟨haddrs, fun i hi => ⟨?_, ?_⟩⟩
  · rw [haddrs, range'_getD _ _ _ hi]
  · have hacc1 : ∀ pr ∈ prs,
        pr.1.acc < (visit_batched h prs).store.length := by
      intro pr hpr
      rw [hlen]
      exact hvalid pr hpr
    rw [gen_batchable_eq,
      show h.store.length + i = (visit_batched h prs).store.length + i by
        rw [hlen],
      batchSnapshots_read_at prs _ _ i hi hacc1,
      read_visit_batched_at prs h i hi hvalid hdist]

/-- Evaluation of `claim2_batch_keeps_prior_entries` on a batch of two
providers: the first keeps its pre-run entry `(0, 5)` alongside the entry
`(1, 7)` recorded during the run, and the second — which records nothing —
returns exactly its pre-run entry `(3, 1)`. -/
theorem claim2_witness :
    (gen_batchable (V := Nat) ⟨[[(0, 5)], [(3, 1)]]⟩
        [(⟨0⟩, [(1, 7)]), (⟨1⟩, [])]).2 = [2, 3] ∧
    (gen_batchable (V := Nat) ⟨[[(0, 5)], [(3, 1)]]⟩
        [(⟨0⟩, [(1, 7)]), (⟨1⟩, [])]).1.read 2 = [(0, 5), (1, 7)] ∧
    (gen_batchable (V := Nat) ⟨[[(0, 5)], [(3, 1)]]⟩
        [(⟨0⟩, [(1, 7)]), (⟨1⟩, [])]).1.read 3 = [(3, 1)] := by
  have h := claim2_batch_keeps_prior_entries (V := Nat)
    ⟨[[(0, 5)], [(3, 1)]]⟩ [(⟨0⟩, [(1, 7)]), (⟨1⟩, [])]
    (by decide) (by decide)
  exact ⟨h.1.trans (by decide), ((h.2 0 (by decide)).2).trans (by decide),
    ((h.2 1 (by decide)).2).trans (by decide)⟩

/-- C3: with `kind` equal to the provider's own type, `get_metadata` reads
the live accumulator: a recorded value is returned whether or not a default
was supplied; a missing node fails with `MetadataNotFound` when no default
was supplied, and yields the default when one was. -/
theorem claim3_get_metadata_own_kind {V : Type} (h : Heap V) (p : Provider)
    (n : Node) :
    (∀ v : V, (h.read p.acc).get? n = some v →
      ∀ dflt : Option V, get_metadata h p n dflt = .found v) ∧
    ((h.read p.acc).get? n = none →
      get_metadata h p n none = .metadataNotFound) ∧
    (∀ d : V, (h.read p.acc).get? n = none →
      get_metadata h p n (some d) = .found d) := by
  refine ⟨fun v hv dflt => ?_, fun hn => ?_, fun d hn => ?_⟩
  · cases dflt <;> simp [get_metadata, hv]
  · simp [get_metadata, hn]
  · simp [get_metadata, hn]

/-- Evaluation of `claim3_get_metadata_own_kind` on an accumulator holding
`42` for node `0`: present node found, absent node without default fails,
absent node with default `7` yields `7`. -/
theorem claim3_witness :
    get_metadata (V := Nat) ⟨[[(0, 42)]]⟩ ⟨0⟩ 0 none = .found 42 ∧
    get_metadata (V := Nat) ⟨[[(0, 42)]]⟩ ⟨0⟩ 1 none = .metadataNotFound ∧
    get_metadata (V := Nat) ⟨[[(0, 42)]]⟩ ⟨0⟩ 1 (some 7) = .found 7 :=
  ⟨(claim3_get_metadata_own_kind (V := Nat) ⟨[[(0, 42)]]⟩ ⟨0⟩ 0).1 42
      (by decide) none,
    (claim3_get_metadata_own_kind (V := Nat) ⟨[[(0, 42)]]⟩ ⟨0⟩ 1).2.1
      (by decide),
    (claim3_get_metadata_own_kind (V := Nat) ⟨[[(0, 42)]]⟩ ⟨0⟩ 1).2.2 7
      (by decide)⟩

/-- C4: `_gen` resets the accumulator before the traversal and returns a
snapshot of it afterwards, so the returned map is exactly the dictionary
the traversal's `set_metadata` calls build from empty — the right-hand side
does not mention the pre-call heap, so nothing recorded before the call can
appear in the result. -/
theorem claim4_gen_exactly_this_run {V : Type} (h : Heap V)
    (rs : List (Node × V)) :
    (gen h rs).heap.read (gen h rs).snapshot = Dict.setAll [] rs :=
  gen_read_snapshot h rs

/-- C5: every map returned by `_gen` or by `_gen_batchable` is a read-only
view over a private copy.  For `_gen`: the provider's live accumulator is a
different address from the snapshot, and any sequence of later
`set_metadata` calls — by this provider or any other, the read-only proxy
handing out no writable reference to the snapshot address — leaves the
snapshot's contents exactly as returned.  For `_gen_batchable`: no
provider's accumulator is one of the returned snapshot addresses, and any
sequence of later `set_metadata` calls through accumulators that are not
snapshot addresses leaves every returned snapshot's contents exactly as
returned. -/
theorem claim5_snapshot_immutable {V : Type} (h : Heap V)
    (rs : List (Node × V)) (ops : List (Provider × Node × V))
    (hops : ∀ o ∈ ops, o.1.acc ≠ (gen h rs).snapshot)
    (hb : Heap V) (prs : List (Provider × List (Node × V)))
    (ops2 : List (Provider × Node × V))
    (hvalid : ∀ pr ∈ prs, pr.1.acc < hb.store.length)
    (hops2 : ∀ o ∈ ops2, o.1.acc ∉ (gen_batchable hb prs).2) :
    ((gen h rs).provider.acc ≠ (gen h rs).snapshot ∧
      (ops.foldl (fun h o => set_metadata h o.1 o.2.1 o.2.2)
          (gen h rs).heap).read (gen h rs).snapshot =
        (gen h rs).heap.read (gen h rs).snapshot) ∧
    ((∀ pr ∈ prs, pr.1.acc ∉ (gen_batchable hb prs).2) ∧
      ∀ a ∈ (gen_batchable hb prs).2,
        (ops2.foldl (fun h o => set_metadata h o.1 o.2.1 o.2.2)
            (gen_batchable hb prs).1).read a =
          (gen_batchable hb prs).1.read a) := by
  have haddrs : (gen_batchable hb prs).2 =
      List.range' hb.store.length prs.length := by
    rw [gen_batchable_eq, batchSnapshots_addrs,
      visit_batched_store_length, List.nil_append]
  refine ⟨⟨?_, ?_⟩, ?_, ?_⟩
  · rw [gen_provider_acc, gen_snapshot_addr]
    omega
  · exact read_setMetadataAll_chain ops _ _ hops
  · intro pr hpr
    rw [haddrs]
    exact range'_not_mem_of_lt _ _ _ (hvalid pr hpr)
  · intro a ha
    exact read_setMetadataAll_chain ops2 _ _
      (fun o ho e => hops2 o ho (e ▸ ha))

/-- Evaluation of `claim5_snapshot_immutable`: after `_gen` returns the
snapshot of `[(0, 3)]`, a further `set_metadata` through the provider's
own accumulator leaves the snapshot contents unchanged; and after a batch
run over one provider, a further `set_metadata` through that provider's
accumulator leaves the returned batch snapshot unchanged. -/
theorem claim5_witness :
    ((gen (V := Nat) ⟨[]⟩ [(0, 3)]).provider.acc ≠
        (gen (V := Nat) ⟨[]⟩ [(0, 3)]).snapshot ∧
      ([((⟨0⟩ : Provider), (0 : Node), (9 : Nat))].foldl
          (fun h o => set_metadata h o.1 o.2.1 o.2.2)
          (gen (V := Nat) ⟨[]⟩ [(0, 3)]).heap).read
        (gen (V := Nat) ⟨[]⟩ [(0, 3)]).snapshot =
        (gen (V := Nat) ⟨[]⟩ [(0, 3)]).heap.read
          (gen (V := Nat) ⟨[]⟩ [(0, 3)]).snapshot) ∧
    ((∀ pr ∈ [((⟨0⟩ : Provider), [((1 : Node), (7 : Nat))])],
        pr.1.acc ∉ (gen_batchable (V := Nat) ⟨[[(0, 5)]]⟩
          [(⟨0⟩, [(1, 7)])]).2) ∧
      ∀ a ∈ (gen_batchable (V := Nat) ⟨[[(0, 5)]]⟩ [(⟨0⟩, [(1, 7)])]).2,
        ([((⟨0⟩ : Provider), (2 : Node), (9 : Nat))].foldl
            (fun h o => set_metadata h o.1 o.2.1 o.2.2)
            (gen_batchable (V := Nat) ⟨[[(0, 5)]]⟩ [(⟨0⟩, [(1, 7)])]).1).read
          a =
          (gen_batchable (V := Nat) ⟨[[(0, 5)]]⟩ [(⟨0⟩, [(1, 7)])]).1.read
            a) :=
  claim5_snapshot_immutable (V := Nat) ⟨[]⟩ [(0, 3)] [(⟨0⟩, 0, 9)]
    (by decide) ⟨[[(0, 5)]]⟩ [(⟨0⟩, [(1, 7)])] [(⟨0⟩, 2, 9)]
    (by decide) (by decide)

/-- C9: a batchable provider's `_gen_impl` is a no-op, so running its
compute entry point directly records nothing for any tree: both the
returned frozen map and the accumulator it leaves behind are empty. -/
theorem claim9_batchable_gen_is_empty {V : Type} (tree : Type)
    (module : tree) (h : Heap V) :
    (batchableGen h tree module).heap.read
        (batchableGen h tree module).snapshot = ([] : Dict V) ∧
    (batchableGen h tree module).heap.read
        (batchableGen h tree module).provider.acc = ([] : Dict V) := by
  constructor
  · exact gen_read_snapshot h []
  · show ((h.alloc []).1.alloc ((h.alloc []).1.read h.store.length)).1.read
        h.store.length = []
    rw [Heap.read_alloc_lt _ _ _ (by simp [Heap.alloc])]
    exact Heap.read_alloc_self h []

/-- C6: a module with an empty body and `has_trailing_newline = False`
renders to the empty string and its whole range is `(1,0)-(1,0)`; with
`has_trailing_newline = True` it renders one newline, the cursor advances a
line, and its range is `(1,0)-(2,0)`. -/
theorem claim6_empty_module :
    (Module.mk [] [] [] "\n".toList false).code = "".toList ∧
    findRange (Module.mk [] [] [] "\n".toList false).positions .module =
      some ⟨⟨1, 0⟩, ⟨1, 0⟩⟩ ∧
    (Module.mk [] [] [] "\n".toList true).code = "\n".toList ∧
    findRange (Module.mk [] [] [] "\n".toList true).positions .module =
      some ⟨⟨1, 0⟩, ⟨2, 0⟩⟩ := by
  decide

/-- C7: for the source `"abc"` continued by a backslash into `"def"` on a
second physical line, the statement, the expression and the string node all
receive the single range `(1,0)-(2,5)`: the end is on the second physical
line, just after the closing quote. -/
theorem claim7_multiline_string :
    (Module.mk [.simpleLine [.expr (.str "\"abc\"\\\n\"def\"".toList)]]
        [] [] "\n".toList true).code = "\"abc\"\\\n\"def\"\n".toList ∧
    findRange (Module.mk [.simpleLine [.expr (.str "\"abc\"\\\n\"def\"".toList)]]
        [] [] "\n".toList true).positions (.stmt 0) =
      some ⟨⟨1, 0⟩, ⟨2, 5⟩⟩ ∧
    findRange (Module.mk [.simpleLine [.expr (.str "\"abc\"\\\n\"def\"".toList)]]
        [] [] "\n".toList true).positions (.small 0 0) =
      some ⟨⟨1, 0⟩, ⟨2, 5⟩⟩ ∧
    findRange (Module.mk [.simpleLine [.expr (.str "\"abc\"\\\n\"def\"".toList)]]
        [] [] "\n".toList true).positions (.strNode 0 0) =
      some ⟨⟨1, 0⟩, ⟨2, 5⟩⟩ := by
  decide

/-- C8: a module with header comment `# header`, body `pass` and footer
comment `# footer` renders exactly as `"# header\npass\n# footer\n"`; the
body statement's range is `(2,0)-(2,4)` while the module's own range is
`(1,0)-(4,0)` — the header and footer lines count toward the module's
range. -/
theorem claim8_header_footer :
    (Module.mk [.simpleLine [.pass]] [⟨"# header".toList⟩]
        [⟨"# footer".toList⟩] "\n".toList true).code =
      "# header\npass\n# footer\n".toList ∧
    findRange (Module.mk [.simpleLine [.pass]] [⟨"# header".toList⟩]
        [⟨"# footer".toList⟩] "\n".toList true).positions (.stmt 0) =
      some ⟨⟨2, 0⟩, ⟨2, 4⟩⟩ ∧
    findRange (Module.mk [.simpleLine [.pass]] [⟨"# header".toList⟩]
        [⟨"# footer".toList⟩] "\n".toList true).positions .module =
      some ⟨⟨1, 0⟩, ⟨4, 0⟩⟩ := by
  decide

/-- C10: `code_for_node` renders a node from a fresh state carrying only
the module's document-wide defaults, so two modules differing only in
`has_trailing_newline` render any node identically; in particular a naked
`Newline` node renders as the module's `default_newline` either way. -/
theorem claim10_code_for_node_ignores_trailing (m : Module) (n : RenderNode)
    (b1 b2 : Bool) :
    code_for_node { m with has_trailing_newline := b1 } n =
      code_for_node { m with has_trailing_newline := b2 } n ∧
    code_for_node { m with has_trailing_newline := b1 } .newline =
      m.default_newline := by
  cases n <;> exact ⟨rfl, rfl⟩

end LibCST
